import Mathlib

/-!
# Verification of the TiKV MVCC lock record module (`src/storage/mvcc/lock.rs`)

A shallow embedding of the lock data model, its binary codec and the
timestamp-conflict check, together with proofs of the specification's claims.

Bytes are modelled as `Nat` values (below 256 in any real buffer); `u64` values
are modelled as `Nat` with explicit `% 2 ^ 64` where the code truncates.
Fallible operations return an explicit result type; the `fatal` outcome
models a Rust process abort (`panic` macro) as distinct from ordinary errors.
-/

namespace Mvcc

/-- `LockType` from lock.rs: the closed set of four lock kinds. -/
inductive LockType where
  | Put
  | Delete
  | Lock
  | Pessimistic
deriving DecidableEq, Repr

/-- `FLAG_PUT = b'P'` -/
def FLAG_PUT : Nat := 80
/-- `FLAG_DELETE = b'D'` -/
def FLAG_DELETE : Nat := 68
/-- `FLAG_LOCK = b'L'` -/
def FLAG_LOCK : Nat := 76
/-- `FLAG_PESSIMISTIC = b'S'` -/
def FLAG_PESSIMISTIC : Nat := 83

/-- Modelled from the spec: the one-byte tag of the short-value extension
(constant `SHORT_VALUE_...` defined in `storage/mod.rs`, outside the given
sources; the spec fixes only that the four extension tags are distinct
bytes, so we use the upstream values `b'v'`, `b'f'`, `b't'`, `b'c'`). -/
def SHORT_VALUE_TAG : Nat := 118
/-- Modelled from the spec: the one-byte tag of the for-update-ts extension. -/
def FOR_UPDATE_TS_TAG : Nat := 102
/-- Modelled from the spec: the one-byte tag of the txn-size extension. -/
def TXN_SIZE_TAG : Nat := 116
/-- Modelled from the spec: the one-byte tag of the min-commit-ts extension. -/
def MIN_COMMIT_TS_TAG : Nat := 99

/-- `LockType::from_u8`: partial inverse of the tag mapping. -/
def LockType.from_u8 (b : Nat) : Option LockType :=
  if b = FLAG_PUT then some LockType.Put
  else if b = FLAG_DELETE then some LockType.Delete
  else if b = FLAG_LOCK then some LockType.Lock
  else if b = FLAG_PESSIMISTIC then some LockType.Pessimistic
  else none

/-- `LockType::to_u8`: the one-byte tag of a lock kind. -/
def LockType.to_u8 : LockType → Nat
  | LockType.Put => FLAG_PUT
  | LockType.Delete => FLAG_DELETE
  | LockType.Lock => FLAG_LOCK
  | LockType.Pessimistic => FLAG_PESSIMISTIC

/-- The `Lock` record from lock.rs.  `u64` fields are modelled as `Nat`;
`Vec<u8>` fields as `List Nat`. -/
structure Lock where
  lock_type : LockType
  primary : List Nat
  ts : Nat
  ttl : Nat
  short_value : Option (List Nat)
  for_update_ts : Nat
  txn_size : Nat
  min_commit_ts : Nat
deriving DecidableEq, Repr

/-- `Lock::new`: plain constructor. -/
def Lock.new (lock_type : LockType) (primary : List Nat) (ts ttl : Nat)
    (short_value : Option (List Nat)) (for_update_ts txn_size min_commit_ts : Nat) : Lock :=
  ⟨lock_type, primary, ts, ttl, short_value, for_update_ts, txn_size, min_commit_ts⟩

/-!
## Codec primitives

The integer and byte-sequence codecs live in `tikv_util::codec`, outside the
given sources; each is modelled from the spec's description of the wire
format (§4.2).
-/

/-- Modelled from the spec: `encode_var_u64` — variable-length unsigned
integer, 7 value bits per byte, low groups first, high bit set on every byte
but the last ("fewer bytes for smaller values"). -/
def encode_var_u64 (n : Nat) : List Nat :=
  if h : n < 128 then [n]
  else (n % 128 + 128) :: encode_var_u64 (n / 128)
decreasing_by exact Nat.div_lt_self (Nat.lt_of_lt_of_le (by norm_num) (Nat.le_of_not_lt h)) (by norm_num)

/-- Modelled from the spec: `decode_var_u64` — reads a variable-length
unsigned integer, failing if the buffer ends mid-varint. -/
def decode_var_u64 : List Nat → Option (Nat × List Nat)
  | [] => none
  | x :: rest =>
    if x < 128 then some (x, rest)
    else
      match decode_var_u64 rest with
      | some (v, rest2) => some (x % 128 + v * 128, rest2)
      | none => none

/-- Modelled from the spec: `encode_compact_bytes` — a length-prefixed byte
sequence that preserves the original bytes with no escaping (varint length
followed by the raw bytes). -/
def encode_compact_bytes (p : List Nat) : List Nat :=
  encode_var_u64 p.length ++ p

/-- Modelled from the spec: `decode_compact_bytes` — reads the varint length
then that many raw bytes, failing on truncation. -/
def decode_compact_bytes (b : List Nat) : Option (List Nat × List Nat) :=
  match decode_var_u64 b with
  | none => none
  | some (n, rest) =>
    if n ≤ rest.length then some (rest.take n, rest.drop n) else none

/-- Modelled from the spec: `encode_u64` — fixed-width 8-byte big-endian
unsigned integer (truncating to 64 bits as the Rust `u64` type does). -/
def encode_u64 (n : Nat) : List Nat :=
  [n % 2 ^ 64 / 2 ^ 56 % 256, n % 2 ^ 64 / 2 ^ 48 % 256,
   n % 2 ^ 64 / 2 ^ 40 % 256, n % 2 ^ 64 / 2 ^ 32 % 256,
   n % 2 ^ 64 / 2 ^ 24 % 256, n % 2 ^ 64 / 2 ^ 16 % 256,
   n % 2 ^ 64 / 2 ^ 8 % 256, n % 2 ^ 64 % 256]

/-- Modelled from the spec: `decode_u64` — reads a fixed-width 8-byte
big-endian unsigned integer, failing if fewer than 8 bytes remain. -/
def decode_u64 (b : List Nat) : Option (Nat × List Nat) :=
  if 8 ≤ b.length then
    some ((b.take 8).foldl (fun acc x => acc * 256 + x) 0, b.drop 8)
  else none

/-- A successful fixed-width read consumes exactly 8 bytes. -/
theorem decode_u64_rest {b : List Nat} {v : Nat} {rest : List Nat}
    (h : decode_u64 b = some (v, rest)) : rest = b.drop 8 ∧ 8 ≤ b.length := by
  unfold decode_u64 at h
  split at h
  · exact ⟨(Prod.mk.injEq .. ▸ Option.some.injEq .. ▸ h).2.symm ▸ rfl, by assumption⟩
  · exact absurd h (by simp)

/-!
## Errors and results
-/

/-- The client-facing `LockInfo` descriptor built by `Lock::into_lock_info`
(`Op` collapses onto the lock kind, so we reuse `LockType` for the `Op`
enumeration values Put/Del/Lock/PessimisticLock). -/
structure LockInfo where
  primary_lock : List Nat
  lock_version : Nat
  key : List Nat
  lock_ttl : Nat
  txn_size : Nat
  lock_type : LockType
deriving DecidableEq, Repr

/-- The error variants of the mvcc `Error` type that this module produces:
malformed lock bytes, propagated codec errors, propagated key-decoding
errors, and the conflict report. -/
inductive Error where
  | BadFormatLock
  | Codec
  | KeyError
  | KeyIsLocked (info : LockInfo)
deriving DecidableEq, Repr

/-- Outcome of `Lock::parse`: success, an ordinary recoverable error, or a
process abort (Rust `panic` macro), kept distinct from errors. -/
inductive PResult (α : Type) where
  | ok : α → PResult α
  | err : Error → PResult α
  | fatal : PResult α
deriving DecidableEq, Repr

/-!
## Lock codec (`Lock::to_bytes` / `Lock::parse`)
-/

/-- The short-value segment of `Lock::to_bytes`: tag byte, length byte
(`v.len() as u8`, i.e. the length reduced mod 256), then the raw bytes;
empty when `short_value` is `None`. -/
def svPart : Option (List Nat) → List Nat
  | some v => SHORT_VALUE_TAG :: (v.length % 256) :: v
  | none => []

/-- A fixed-width `u64` extension segment of `Lock::to_bytes`: emitted only
when the value is nonzero. -/
def u64Part (tag : Nat) (n : Nat) : List Nat :=
  if n > 0 then tag :: encode_u64 n else []

/-- `Lock::to_bytes`: type tag, compact primary, varint ts, varint ttl,
then the optional tagged extensions in the fixed emission order. -/
def Lock.to_bytes (l : Lock) : List Nat :=
  l.lock_type.to_u8 :: encode_compact_bytes l.primary
    ++ encode_var_u64 l.ts ++ encode_var_u64 l.ttl
    ++ svPart l.short_value
    ++ u64Part FOR_UPDATE_TS_TAG l.for_update_ts
    ++ u64Part TXN_SIZE_TAG l.txn_size
    ++ u64Part MIN_COMMIT_TS_TAG l.min_commit_ts

/-- The tagged-extension loop of `Lock::parse`: reads (tag, payload) pairs
until the buffer is exhausted, overwriting the four extension fields; an
unknown tag, or a short-value length exceeding the remaining buffer, aborts
(`fatal`); a buffer ending inside a payload is an ordinary codec error. -/
def parse_exts : List Nat → Option (List Nat) → Nat → Nat → Nat →
    PResult (Option (List Nat) × Nat × Nat × Nat)
  | [], sv, fu, tx, mc => PResult.ok (sv, fu, tx, mc)
  | flag :: rest, sv, fu, tx, mc =>
    if flag = SHORT_VALUE_TAG then
      match rest with
      | [] => PResult.err Error.Codec
      | len :: rest2 =>
        if rest2.length < len then PResult.fatal
        else parse_exts (rest2.drop len) (some (rest2.take len)) fu tx mc
    else if flag = FOR_UPDATE_TS_TAG then
      match h : decode_u64 rest with
      | none => PResult.err Error.Codec
      | some (v, rest2) => parse_exts rest2 sv v tx mc
    else if flag = TXN_SIZE_TAG then
      match h : decode_u64 rest with
      | none => PResult.err Error.Codec
      | some (v, rest2) => parse_exts rest2 sv fu v mc
    else if flag = MIN_COMMIT_TS_TAG then
      match h : decode_u64 rest with
      | none => PResult.err Error.Codec
      | some (v, rest2) => parse_exts rest2 sv fu tx v
    else PResult.fatal
termination_by b _ _ _ _ => b.length
decreasing_by
  · simp only [List.length_cons, List.length_drop]
    omega
  all_goals
    obtain ⟨hr, hlen⟩ := decode_u64_rest h
    subst hr
    simp only [List.length_cons, List.length_drop]
    omega

/-- `Lock::parse`: the full decoder — empty input and an unknown leading tag
fail with `BadFormatLock`; the fixed prefix is read by the codec primitives
(`ttl` defaulting to 0 on an exhausted buffer); then the extension loop. -/
def Lock.parse (b : List Nat) : PResult Lock :=
  match b with
  | [] => PResult.err Error.BadFormatLock
  | t :: rest =>
    match LockType.from_u8 t with
    | none => PResult.err Error.BadFormatLock
    | some lock_type =>
      match decode_compact_bytes rest with
      | none => PResult.err Error.Codec
      | some (primary, rest1) =>
        match decode_var_u64 rest1 with
        | none => PResult.err Error.Codec
        | some (ts, rest2) =>
          match (if rest2 = [] then some (0, rest2) else decode_var_u64 rest2) with
          | none => PResult.err Error.Codec
          | some (ttl, rest3) =>
            if rest3 = [] then
              PResult.ok (Lock.new lock_type primary ts ttl none 0 0 0)
            else
              match parse_exts rest3 none 0 0 0 with
              | PResult.ok (sv, fu, tx, mc) =>
                PResult.ok (Lock.new lock_type primary ts ttl sv fu tx mc)
              | PResult.err e => PResult.err e
              | PResult.fatal => PResult.fatal

/-!
## Conflict check (`Lock::check_ts_conflict`) and collaborators
-/

deriving instance DecidableEq for Except

/-- The `Key` collaborator, abstracted to the one operation this module
uses: `to_raw`, which may fail.  A `Key` is modelled by the outcome of that
conversion. -/
structure Key where
  raw : Except Unit (List Nat)
deriving DecidableEq, Repr

/-- `Key::to_raw`. -/
def Key.to_raw (k : Key) : Except Unit (List Nat) := k.raw

/-- The `TsSet` collaborator: an explicit collection of timestamps with a
membership test. -/
def TsSet := List Nat

/-- `TsSet::new`. -/
def TsSet.new (l : List Nat) : TsSet := l

/-- `TsSet::contains`. -/
def TsSet.contains (s : TsSet) (ts : Nat) : Bool := List.contains s ts

/-- The maximum representable `u64` timestamp (`std::u64::MAX`). -/
def u64MAX : Nat := 2 ^ 64 - 1

/-- `Lock::into_lock_info`: builds the client-facing descriptor from the
lock and the raw key being reported on. -/
def Lock.into_lock_info (l : Lock) (raw_key : List Nat) : LockInfo :=
  ⟨l.primary, l.ts, raw_key, l.ttl, l.txn_size, l.lock_type⟩

/-- `Lock::check_ts_conflict`: the ordered conflict-decision procedure run
by every read against a lock it encounters. -/
def Lock.check_ts_conflict (l : Lock) (key : Key) (ts : Nat) (bypass_locks : TsSet) :
    Except Error Unit :=
  if l.ts > ts ∨ l.lock_type = LockType.Lock ∨ l.lock_type = LockType.Pessimistic then
    Except.ok ()
  else if bypass_locks.contains l.ts then
    Except.ok ()
  else
    match key.to_raw with
    | Except.error _ => Except.error Error.KeyError
    | Except.ok raw_key =>
      if ts = u64MAX ∧ raw_key = l.primary then
        Except.ok ()
      else
        Except.error (Error.KeyIsLocked (l.into_lock_info raw_key))

/-!
## Codec round-trip lemmas
-/

/-- A varint encoding is never empty. -/
theorem encode_var_u64_ne_nil (n : Nat) : encode_var_u64 n ≠ [] := by
  unfold encode_var_u64
  split <;> simp

/-- Varint round-trip: decoding the encoding of `n`, followed by any tail,
recovers `n` and leaves the tail. -/
theorem decode_var_u64_encode (n : Nat) (t : List Nat) :
    decode_var_u64 (encode_var_u64 n ++ t) = some (n, t) := by
  induction n using Nat.strong_induction_on with
  | _ n ih =>
    unfold encode_var_u64
    split
    · simp [decode_var_u64, *]
    · rename_i h
      have hrec := ih (n / 128) (Nat.div_lt_self (by omega) (by norm_num))
      have hge : ¬ (n % 128 + 128 < 128) := by omega
      rw [List.cons_append, decode_var_u64, hrec, if_neg hge]
      simp only [Option.some.injEq, Prod.mk.injEq]
      exact ⟨by omega, trivial⟩

/-- Compact-bytes round-trip: decoding the encoding of `p`, followed by any
tail, recovers `p` exactly and leaves the tail. -/
theorem decode_compact_bytes_encode (p t : List Nat) :
    decode_compact_bytes (encode_compact_bytes p ++ t) = some (p, t) := by
  unfold encode_compact_bytes decode_compact_bytes
  rw [List.append_assoc, decode_var_u64_encode]
  simp only [List.length_append, Nat.le_add_right, if_pos, List.take_left, List.drop_left]

/-- Fixed-width `u64` round-trip for values in the `u64` range. -/
theorem decode_u64_encode (n : Nat) (t : List Nat) (h : n < 2 ^ 64) :
    decode_u64 (encode_u64 n ++ t) = some (n, t) := by
  have hm : n % 2 ^ 64 = n := Nat.mod_eq_of_lt h
  unfold encode_u64 decode_u64
  simp only [hm, List.cons_append, List.nil_append, List.length_cons]
  have hle : 8 ≤ t.length + 8 := by omega
  rw [if_pos (by simp)]
  simp only [List.take, List.drop, List.foldl, Option.some.injEq, Prod.mk.injEq]
  exact ⟨by omega, trivial⟩

/-!
## Extension-loop lemmas
-/

/-- The extension loop on an exhausted buffer returns the accumulated
fields. -/
theorem parse_exts_nil (sv : Option (List Nat)) (fu tx mc : Nat) :
    parse_exts [] sv fu tx mc = PResult.ok (sv, fu, tx, mc) := by
  simp [parse_exts]

/-- Consuming an encoded short-value segment overwrites the short-value
accumulator, provided the value respects the one-byte length field. -/
theorem parse_exts_sv (v rest : List Nat) (sv : Option (List Nat)) (fu tx mc : Nat)
    (h : v.length ≤ 255) :
    parse_exts (svPart (some v) ++ rest) sv fu tx mc =
      parse_exts rest (some v) fu tx mc := by
  have hlen : v.length % 256 = v.length := Nat.mod_eq_of_lt (by omega)
  have hge : ¬ ((v ++ rest).length < v.length) := by
    simp only [List.length_append]
    omega
  rw [svPart, List.cons_append, parse_exts.eq_def]
  simp [hlen, if_neg hge, List.take_left, List.drop_left]

/-- Consuming an encoded for-update-ts segment overwrites that field. -/
theorem parse_exts_fu (n : Nat) (rest : List Nat) (sv : Option (List Nat)) (fu tx mc : Nat)
    (hpos : 0 < n) (hn : n < 2 ^ 64) :
    parse_exts (u64Part FOR_UPDATE_TS_TAG n ++ rest) sv fu tx mc =
      parse_exts rest sv n tx mc := by
  rw [u64Part, if_pos hpos, List.cons_append, parse_exts.eq_def]
  norm_num [FOR_UPDATE_TS_TAG, SHORT_VALUE_TAG, TXN_SIZE_TAG, MIN_COMMIT_TS_TAG]
  have hd := decode_u64_encode n rest hn
  split
  · rename_i h
    rw [hd] at h
    cases h
  · rename_i v rest2 h
    rw [hd] at h
    injection h with h2
    injection h2 with h3 h4
    rw [h3, h4]

/-- Consuming an encoded txn-size segment overwrites that field. -/
theorem parse_exts_tx (n : Nat) (rest : List Nat) (sv : Option (List Nat)) (fu tx mc : Nat)
    (hpos : 0 < n) (hn : n < 2 ^ 64) :
    parse_exts (u64Part TXN_SIZE_TAG n ++ rest) sv fu tx mc =
      parse_exts rest sv fu n mc := by
  rw [u64Part, if_pos hpos, List.cons_append, parse_exts.eq_def]
  norm_num [FOR_UPDATE_TS_TAG, SHORT_VALUE_TAG, TXN_SIZE_TAG, MIN_COMMIT_TS_TAG]
  have hd := decode_u64_encode n rest hn
  split
  · rename_i h
    rw [hd] at h
    cases h
  · rename_i v rest2 h
    rw [hd] at h
    injection h with h2
    injection h2 with h3 h4
    rw [h3, h4]

/-- Consuming an encoded min-commit-ts segment overwrites that field. -/
theorem parse_exts_mc (n : Nat) (rest : List Nat) (sv : Option (List Nat)) (fu tx mc : Nat)
    (hpos : 0 < n) (hn : n < 2 ^ 64) :
    parse_exts (u64Part MIN_COMMIT_TS_TAG n ++ rest) sv fu tx mc =
      parse_exts rest sv fu tx n := by
  rw [u64Part, if_pos hpos, List.cons_append, parse_exts.eq_def]
  norm_num [FOR_UPDATE_TS_TAG, SHORT_VALUE_TAG, TXN_SIZE_TAG, MIN_COMMIT_TS_TAG]
  have hd := decode_u64_encode n rest hn
  split
  · rename_i h
    rw [hd] at h
    cases h
  · rename_i v rest2 h
    rw [hd] at h
    injection h with h2
    injection h2 with h3 h4
    rw [h3, h4]

/-- Running the extension loop over the extension segments produced by
`Lock::to_bytes` recovers exactly the encoded field values. -/
theorem parse_exts_encode (sv : Option (List Nat)) (fu tx mc : Nat)
    (hsv : ∀ v, sv = some v → v.length ≤ 255)
    (hfu : fu < 2 ^ 64) (htx : tx < 2 ^ 64) (hmc : mc < 2 ^ 64) :
    parse_exts (svPart sv ++ (u64Part FOR_UPDATE_TS_TAG fu ++
        (u64Part TXN_SIZE_TAG tx ++ u64Part MIN_COMMIT_TS_TAG mc))) none 0 0 0 =
      PResult.ok (sv, fu, tx, mc) := by
  have step1 : ∀ R, parse_exts (svPart sv ++ R) none 0 0 0 = parse_exts R sv 0 0 0 := by
    intro R
    cases sv with
    | none => simp [svPart]
    | some v => exact parse_exts_sv v R none 0 0 0 (hsv v rfl)
  have step2 : ∀ R tx0 mc0, parse_exts (u64Part FOR_UPDATE_TS_TAG fu ++ R) sv 0 tx0 mc0 =
      parse_exts R sv fu tx0 mc0 := by
    intro R tx0 mc0
    rcases Nat.eq_zero_or_pos fu with h0 | hpos
    · simp [u64Part, h0]
    · exact parse_exts_fu fu R sv 0 tx0 mc0 hpos hfu
  have step3 : ∀ R mc0, parse_exts (u64Part TXN_SIZE_TAG tx ++ R) sv fu 0 mc0 =
      parse_exts R sv fu tx mc0 := by
    intro R mc0
    rcases Nat.eq_zero_or_pos tx with h0 | hpos
    · simp [u64Part, h0]
    · exact parse_exts_tx tx R sv fu 0 mc0 hpos htx
  have step4 : parse_exts (u64Part MIN_COMMIT_TS_TAG mc ++ []) sv fu tx 0 =
      parse_exts [] sv fu tx mc := by
    rcases Nat.eq_zero_or_pos mc with h0 | hpos
    · simp [u64Part, h0]
    · exact parse_exts_mc mc [] sv fu tx 0 hpos hmc
  rw [step1, step2, step3, ← List.append_nil (u64Part MIN_COMMIT_TS_TAG mc), step4,
    parse_exts_nil]

/-- The tag-mapping round-trip used by the decoder's first step. -/
theorem from_u8_to_u8 (lt : LockType) :
    LockType.from_u8 (LockType.to_u8 lt) = some lt := by
  cases lt <;> decide

/-- Decoding a well-formed fixed prefix followed by an arbitrary extension
stream reduces `Lock::parse` to the extension loop on that stream. -/
theorem parse_prefix_exts (lt : LockType) (primary : List Nat) (ts ttl : Nat)
    (ext : List Nat) :
    Lock.parse (lt.to_u8 :: (encode_compact_bytes primary ++
        (encode_var_u64 ts ++ (encode_var_u64 ttl ++ ext)))) =
      match parse_exts ext none 0 0 0 with
      | PResult.ok (sv, fu, tx, mc) => PResult.ok (Lock.new lt primary ts ttl sv fu tx mc)
      | PResult.err e => PResult.err e
      | PResult.fatal => PResult.fatal := by
  have hne : ¬ (encode_var_u64 ttl ++ ext = []) := by
    intro h
    exact encode_var_u64_ne_nil ttl (List.append_eq_nil.mp h).1
  simp only [Lock.parse, from_u8_to_u8, decode_compact_bytes_encode,
    decode_var_u64_encode, if_neg hne]
  by_cases hext : ext = []
  · subst hext
    simp [parse_exts_nil]
  · simp only [if_neg hext]

/-!
## Single-step unfoldings of the extension loop
-/

/-- A short-value tag at the very end of the buffer: the length read fails
with an ordinary codec error. -/
theorem parse_exts_sv_nil (sv : Option (List Nat)) (fu tx mc : Nat) :
    parse_exts [SHORT_VALUE_TAG] sv fu tx mc = PResult.err Error.Codec := by
  rw [parse_exts.eq_def]
  simp

/-- A short-value extension whose declared length exceeds the remaining
buffer aborts. -/
theorem parse_exts_sv_short (len : Nat) (rest2 : List Nat)
    (sv : Option (List Nat)) (fu tx mc : Nat) (h : rest2.length < len) :
    parse_exts (SHORT_VALUE_TAG :: len :: rest2) sv fu tx mc = PResult.fatal := by
  rw [parse_exts.eq_def]
  simp [h]

/-- A short-value extension with enough bytes consumes them into the
short-value accumulator. -/
theorem parse_exts_sv_take (len : Nat) (rest2 : List Nat)
    (sv : Option (List Nat)) (fu tx mc : Nat) (h : ¬ rest2.length < len) :
    parse_exts (SHORT_VALUE_TAG :: len :: rest2) sv fu tx mc =
      parse_exts (rest2.drop len) (some (rest2.take len)) fu tx mc := by
  rw [parse_exts.eq_def]
  simp [h]

/-- A for-update-ts extension with a truncated payload is a codec error. -/
theorem parse_exts_fu_none (rest : List Nat) (sv : Option (List Nat)) (fu tx mc : Nat)
    (h : decode_u64 rest = none) :
    parse_exts (FOR_UPDATE_TS_TAG :: rest) sv fu tx mc = PResult.err Error.Codec := by
  rw [parse_exts.eq_def]
  norm_num [FOR_UPDATE_TS_TAG, SHORT_VALUE_TAG]
  split
  · rfl
  · rename_i v rest2 h2
    rw [h] at h2
    cases h2

/-- A for-update-ts extension with a full payload overwrites that field. -/
theorem parse_exts_fu_some (rest : List Nat) (sv : Option (List Nat)) (fu tx mc : Nat)
    (v : Nat) (rest2 : List Nat) (h : decode_u64 rest = some (v, rest2)) :
    parse_exts (FOR_UPDATE_TS_TAG :: rest) sv fu tx mc = parse_exts rest2 sv v tx mc := by
  rw [parse_exts.eq_def]
  norm_num [FOR_UPDATE_TS_TAG, SHORT_VALUE_TAG]
  split
  · rename_i h2
    rw [h] at h2
    cases h2
  · rename_i v2 rest3 h2
    rw [h] at h2
    injection h2 with h3
    injection h3 with h4 h5
    rw [h4, h5]

/-- A txn-size extension with a truncated payload is a codec error. -/
theorem parse_exts_tx_none (rest : List Nat) (sv : Option (List Nat)) (fu tx mc : Nat)
    (h : decode_u64 rest = none) :
    parse_exts (TXN_SIZE_TAG :: rest) sv fu tx mc = PResult.err Error.Codec := by
  rw [parse_exts.eq_def]
  norm_num [FOR_UPDATE_TS_TAG, SHORT_VALUE_TAG, TXN_SIZE_TAG]
  split
  · rfl
  · rename_i v rest2 h2
    rw [h] at h2
    cases h2

/-- A txn-size extension with a full payload overwrites that field. -/
theorem parse_exts_tx_some (rest : List Nat) (sv : Option (List Nat)) (fu tx mc : Nat)
    (v : Nat) (rest2 : List Nat) (h : decode_u64 rest = some (v, rest2)) :
    parse_exts (TXN_SIZE_TAG :: rest) sv fu tx mc = parse_exts rest2 sv fu v mc := by
  rw [parse_exts.eq_def]
  norm_num [FOR_UPDATE_TS_TAG, SHORT_VALUE_TAG, TXN_SIZE_TAG]
  split
  · rename_i h2
    rw [h] at h2
    cases h2
  · rename_i v2 rest3 h2
    rw [h] at h2
    injection h2 with h3
    injection h3 with h4 h5
    rw [h4, h5]

/-- A min-commit-ts extension with a truncated payload is a codec error. -/
theorem parse_exts_mc_none (rest : List Nat) (sv : Option (List Nat)) (fu tx mc : Nat)
    (h : decode_u64 rest = none) :
    parse_exts (MIN_COMMIT_TS_TAG :: rest) sv fu tx mc = PResult.err Error.Codec := by
  rw [parse_exts.eq_def]
  norm_num [FOR_UPDATE_TS_TAG, SHORT_VALUE_TAG, TXN_SIZE_TAG, MIN_COMMIT_TS_TAG]
  split
  · rfl
  · rename_i v rest2 h2
    rw [h] at h2
    cases h2

/-- A min-commit-ts extension with a full payload overwrites that field. -/
theorem parse_exts_mc_some (rest : List Nat) (sv : Option (List Nat)) (fu tx mc : Nat)
    (v : Nat) (rest2 : List Nat) (h : decode_u64 rest = some (v, rest2)) :
    parse_exts (MIN_COMMIT_TS_TAG :: rest) sv fu tx mc = parse_exts rest2 sv fu tx v := by
  rw [parse_exts.eq_def]
  norm_num [FOR_UPDATE_TS_TAG, SHORT_VALUE_TAG, TXN_SIZE_TAG, MIN_COMMIT_TS_TAG]
  split
  · rename_i h2
    rw [h] at h2
    cases h2
  · rename_i v2 rest3 h2
    rw [h] at h2
    injection h2 with h3
    injection h3 with h4 h5
    rw [h4, h5]

/-- An extension whose tag is none of the four known tags aborts. -/
theorem parse_exts_unknown (flag : Nat) (rest : List Nat)
    (sv : Option (List Nat)) (fu tx mc : Nat)
    (h1 : flag ≠ SHORT_VALUE_TAG) (h2 : flag ≠ FOR_UPDATE_TS_TAG)
    (h3 : flag ≠ TXN_SIZE_TAG) (h4 : flag ≠ MIN_COMMIT_TS_TAG) :
    parse_exts (flag :: rest) sv fu tx mc = PResult.fatal := by
  rw [parse_exts.eq_def]
  simp [h1, h2, h3, h4]

/-- Every short value assembled by the extension loop from a byte-valid
buffer either is the accumulator passed in or fits the one-byte length
field (at most 255 bytes). -/
theorem parse_exts_short_bound (b : List Nat) (sv : Option (List Nat)) (fu tx mc : Nat) :
    ∀ (sv' : Option (List Nat)) (fu' tx' mc' : Nat),
      (∀ x ∈ b, x < 256) →
      parse_exts b sv fu tx mc = PResult.ok (sv', fu', tx', mc') →
      sv' = sv ∨ ∃ w, sv' = some w ∧ w.length ≤ 255 := by
  induction b, sv, fu, tx, mc using parse_exts.induct with
  | case1 sv fu tx mc =>
    intro sv' fu' tx' mc' hbytes h
    rw [parse_exts_nil] at h
    simp only [PResult.ok.injEq, Prod.mk.injEq] at h
    exact Or.inl h.1.symm
  | case2 sv fu tx mc =>
    intro sv' fu' tx' mc' hbytes h
    rw [parse_exts_sv_nil] at h
    cases h
  | case3 sv fu tx mc len rest2 hlt =>
    intro sv' fu' tx' mc' hbytes h
    rw [parse_exts_sv_short len rest2 sv fu tx mc hlt] at h
    cases h
  | case4 sv fu tx mc len rest2 hge ih =>
    intro sv' fu' tx' mc' hbytes h
    rw [parse_exts_sv_take len rest2 sv fu tx mc hge] at h
    rcases ih sv' fu' tx' mc'
        (fun x hx => hbytes x (List.mem_cons_of_mem _
          (List.mem_cons_of_mem _ (List.mem_of_mem_drop hx)))) h with heq | hex
    · right
      refine ⟨List.take len rest2, heq, ?_⟩
      have hle : len ≤ rest2.length := Nat.le_of_not_lt hge
      have hlen256 : len < 256 := hbytes len (by simp)
      rw [List.length_take]
      omega
    · exact Or.inr hex
  | case5 rest sv fu tx mc hnone hne =>
    intro sv' fu' tx' mc' hbytes h
    rw [parse_exts_fu_none rest sv fu tx mc hnone] at h
    cases h
  | case6 rest sv fu tx mc v rest2 hsome hne ih =>
    intro sv' fu' tx' mc' hbytes h
    rw [parse_exts_fu_some rest sv fu tx mc v rest2 hsome] at h
    refine ih sv' fu' tx' mc' ?_ h
    intro x hx
    rw [(decode_u64_rest hsome).1] at hx
    exact hbytes x (List.mem_cons_of_mem _ (List.mem_of_mem_drop hx))
  | case7 rest sv fu tx mc hnone hne1 hne2 =>
    intro sv' fu' tx' mc' hbytes h
    rw [parse_exts_tx_none rest sv fu tx mc hnone] at h
    cases h
  | case8 rest sv fu tx mc v rest2 hsome hne1 hne2 ih =>
    intro sv' fu' tx' mc' hbytes h
    rw [parse_exts_tx_some rest sv fu tx mc v rest2 hsome] at h
    refine ih sv' fu' tx' mc' ?_ h
    intro x hx
    rw [(decode_u64_rest hsome).1] at hx
    exact hbytes x (List.mem_cons_of_mem _ (List.mem_of_mem_drop hx))
  | case9 rest sv fu tx mc hnone hne1 hne2 hne3 =>
    intro sv' fu' tx' mc' hbytes h
    rw [parse_exts_mc_none rest sv fu tx mc hnone] at h
    cases h
  | case10 rest sv fu tx mc v rest2 hsome hne1 hne2 hne3 ih =>
    intro sv' fu' tx' mc' hbytes h
    rw [parse_exts_mc_some rest sv fu tx mc v rest2 hsome] at h
    refine ih sv' fu' tx' mc' ?_ h
    intro x hx
    rw [(decode_u64_rest hsome).1] at hx
    exact hbytes x (List.mem_cons_of_mem _ (List.mem_of_mem_drop hx))
  | case11 flag rest sv fu tx mc hne1 hne2 hne3 hne4 =>
    intro sv' fu' tx' mc' hbytes h
    rw [parse_exts_unknown flag rest sv fu tx mc hne1 hne2 hne3 hne4] at h
    cases h

/-- Every byte of a fixed-width `u64` extension segment is below 256
whenever its tag byte is. -/
theorem u64Part_bytes (tag : Nat) (n : Nat) (htag : tag < 256) :
    ∀ x ∈ u64Part tag n, x < 256 := by
  intro x hx
  unfold u64Part encode_u64 at hx
  split at hx
  · simp only [List.mem_cons, List.not_mem_nil, or_false] at hx
    rcases hx with rfl | rfl | rfl | rfl | rfl | rfl | rfl | rfl | rfl <;> omega
  · cases hx

/-- Validity of a short value for the one-byte length field: absent, or at
most 255 bytes long. -/
def shortValueOk (sv : Option (List Nat)) : Bool :=
  match sv with
  | none => true
  | some v => v.length ≤ 255

/-!
## Claims
-/

/-- Claim C1: for every valid `Lock` value (its `short_value`, when present,
within the one-byte length limit of 255, and its `u64` fields in range),
parsing the bytes produced by encoding it yields exactly the original lock:
`Lock::parse(Lock::to_bytes(L)) == Ok(L)`. -/
theorem C1_round_trip (l : Lock)
    (hsv : shortValueOk l.short_value = true)
    (hfu : l.for_update_ts < 2 ^ 64) (htx : l.txn_size < 2 ^ 64)
    (hmc : l.min_commit_ts < 2 ^ 64) :
    Lock.parse (Lock.to_bytes l) = PResult.ok l := by
  have hsv' : ∀ v, l.short_value = some v → v.length ≤ 255 := by
    intro v hv
    rw [hv] at hsv
    simpa [shortValueOk] using hsv
  have h1 : Lock.to_bytes l = l.lock_type.to_u8 :: (encode_compact_bytes l.primary ++
      (encode_var_u64 l.ts ++ (encode_var_u64 l.ttl ++ (svPart l.short_value ++
        (u64Part FOR_UPDATE_TS_TAG l.for_update_ts ++ (u64Part TXN_SIZE_TAG l.txn_size ++
          u64Part MIN_COMMIT_TS_TAG l.min_commit_ts)))))) := by
    simp [Lock.to_bytes, List.append_assoc]
  rw [h1, parse_prefix_exts,
    parse_exts_encode l.short_value l.for_update_ts l.txn_size l.min_commit_ts hsv' hfu htx hmc]
  cases l
  rfl

/-- Witness for C1 at a concrete lock exercising every field. -/
theorem C1_round_trip_witness :
    Lock.parse (Lock.to_bytes
        ⟨LockType.Put, [112, 107], 1, 10, some [1, 2], 3, 4, 5⟩) =
      PResult.ok ⟨LockType.Put, [112, 107], 1, 10, some [1, 2], 3, 4, 5⟩ :=
  C1_round_trip ⟨LockType.Put, [112, 107], 1, 10, some [1, 2], 3, 4, 5⟩
    (by decide) (by decide) (by decide) (by decide)

/-- Claim C3: a lock created after the read snapshot (`lock.ts > read_ts`),
or of kind `Lock` or `Pessimistic`, never conflicts, regardless of key,
bypass set, or any other field. -/
theorem C3_no_conflict (l : Lock) (key : Key) (ts : Nat) (bypass : TsSet)
    (h : l.ts > ts ∨ l.lock_type = LockType.Lock ∨ l.lock_type = LockType.Pessimistic) :
    l.check_ts_conflict key ts bypass = Except.ok () := by
  unfold Lock.check_ts_conflict
  rw [if_pos h]

/-- Witness for C3: a future `Put` lock against a smaller read timestamp. -/
theorem C3_no_conflict_witness :
    Lock.check_ts_conflict ⟨LockType.Put, [], 100, 3, none, 0, 1, 0⟩
        ⟨Except.ok [102, 111, 111]⟩ 50 (TsSet.new []) = Except.ok () :=
  C3_no_conflict ⟨LockType.Put, [], 100, 3, none, 0, 1, 0⟩
    ⟨Except.ok [102, 111, 111]⟩ 50 (TsSet.new []) (by decide)

/-- Claim C4: for a `Put`/`Delete` lock visible to the read
(`lock.ts <= read_ts`) and not bypassed, the max-timestamp read of the
lock's own primary key is exempt; every other case is a `KeyIsLocked`
conflict carrying the descriptor built from the raw key. -/
theorem C4_primary_exemption (l : Lock) (key : Key) (ts : Nat) (bypass : TsSet)
    (raw : List Nat)
    (hkind : l.lock_type = LockType.Put ∨ l.lock_type = LockType.Delete)
    (hts : l.ts ≤ ts)
    (hbp : bypass.contains l.ts = false)
    (hraw : key.to_raw = Except.ok raw) :
    (ts = u64MAX ∧ raw = l.primary →
      l.check_ts_conflict key ts bypass = Except.ok ()) ∧
    (¬ (ts = u64MAX ∧ raw = l.primary) →
      l.check_ts_conflict key ts bypass =
        Except.error (Error.KeyIsLocked (l.into_lock_info raw))) := by
  have h1 : ¬ (l.ts > ts ∨ l.lock_type = LockType.Lock ∨
      l.lock_type = LockType.Pessimistic) := by
    rcases hkind with h | h <;> simp [h] <;> omega
  unfold Lock.check_ts_conflict
  rw [if_neg h1, if_neg (by simp [hbp]), hraw]
  constructor
  · intro h
    show (if ts = u64MAX ∧ raw = l.primary then (Except.ok () : Except Error Unit)
      else Except.error (Error.KeyIsLocked (l.into_lock_info raw))) = Except.ok ()
    rw [if_pos h]
  · intro h
    show (if ts = u64MAX ∧ raw = l.primary then (Except.ok () : Except Error Unit)
      else Except.error (Error.KeyIsLocked (l.into_lock_info raw))) =
      Except.error (Error.KeyIsLocked (l.into_lock_info raw))
    rw [if_neg h]

/-- Witness for C4: both branches at concrete inputs — a max-timestamp read
of the lock's primary key is exempt, while an ordinary read conflicts. -/
theorem C4_primary_exemption_witness :
    (Lock.check_ts_conflict ⟨LockType.Put, [102, 111, 111], 100, 3, none, 0, 1, 0⟩
        ⟨Except.ok [102, 111, 111]⟩ u64MAX (TsSet.new []) = Except.ok ()) ∧
    (Lock.check_ts_conflict ⟨LockType.Put, [], 100, 3, none, 0, 1, 0⟩
        ⟨Except.ok [102, 111, 111]⟩ 110 (TsSet.new []) =
      Except.error (Error.KeyIsLocked ⟨[], 100, [102, 111, 111], 3, 1, LockType.Put⟩)) :=
  ⟨(C4_primary_exemption ⟨LockType.Put, [102, 111, 111], 100, 3, none, 0, 1, 0⟩
      ⟨Except.ok [102, 111, 111]⟩ u64MAX (TsSet.new []) [102, 111, 111]
      (by decide) (by decide) (by decide) rfl).1 (by decide),
   (C4_primary_exemption ⟨LockType.Put, [], 100, 3, none, 0, 1, 0⟩
      ⟨Except.ok [102, 111, 111]⟩ 110 (TsSet.new []) [102, 111, 111]
      (by decide) (by decide) (by decide) rfl).2 (by decide)⟩

/-- Claim C5: the bypass rule tests membership of the lock's own timestamp,
not the reader's: any bypass set containing `lock.ts` yields no conflict,
while for the concrete Put lock with ts 100 read at 110, bypassing 110
still conflicts and bypassing 100 does not. -/
theorem C5_bypass_is_lock_ts :
    (∀ (l : Lock) (key : Key) (ts : Nat) (bypass : TsSet),
      bypass.contains l.ts = true →
      l.check_ts_conflict key ts bypass = Except.ok ()) ∧
    (Lock.check_ts_conflict ⟨LockType.Put, [], 100, 3, none, 0, 1, 0⟩
        ⟨Except.ok [102, 111, 111]⟩ 110 (TsSet.new [110]) =
      Except.error (Error.KeyIsLocked ⟨[], 100, [102, 111, 111], 3, 1, LockType.Put⟩)) ∧
    (Lock.check_ts_conflict ⟨LockType.Put, [], 100, 3, none, 0, 1, 0⟩
        ⟨Except.ok [102, 111, 111]⟩ 110 (TsSet.new [100]) = Except.ok ()) := by
  refine ⟨?_, by decide, by decide⟩
  intro l key ts bypass h
  unfold Lock.check_ts_conflict
  split <;> simp [h]

/-- Witness for C5: the bypass clause applied to a concrete lock whose own
timestamp is in the set. -/
theorem C5_bypass_is_lock_ts_witness :
    Lock.check_ts_conflict ⟨LockType.Put, [], 100, 3, none, 0, 1, 0⟩
        ⟨Except.ok [102, 111, 111]⟩ 110 (TsSet.new [99, 101, 102, 100, 80]) =
      Except.ok () :=
  C5_bypass_is_lock_ts.1 ⟨LockType.Put, [], 100, 3, none, 0, 1, 0⟩
    ⟨Except.ok [102, 111, 111]⟩ 110 (TsSet.new [99, 101, 102, 100, 80]) (by decide)

/-- Claim C10: the raw key conversion is consulted only after the first
three no-conflict rules fail — when any of them applies the check returns
`Ok(())` even for a key whose conversion fails, and a conversion failure is
propagated only when none of the three rules applies. -/
theorem C10_to_raw_order :
    (∀ (l : Lock) (key : Key) (ts : Nat) (bypass : TsSet),
      (l.ts > ts ∨ l.lock_type = LockType.Lock ∨ l.lock_type = LockType.Pessimistic ∨
        bypass.contains l.ts = true) →
      l.check_ts_conflict key ts bypass = Except.ok ()) ∧
    (∀ (l : Lock) (key : Key) (ts : Nat) (bypass : TsSet),
      ¬ (l.ts > ts) → l.lock_type ≠ LockType.Lock → l.lock_type ≠ LockType.Pessimistic →
      bypass.contains l.ts = false → key.to_raw = Except.error () →
      l.check_ts_conflict key ts bypass = Except.error Error.KeyError) := by
  constructor
  · intro l key ts bypass h
    unfold Lock.check_ts_conflict
    rcases h with h | h | h | h
    · rw [if_pos (Or.inl h)]
    · rw [if_pos (Or.inr (Or.inl h))]
    · rw [if_pos (Or.inr (Or.inr h))]
    · split <;> simp [h]
  · intro l key ts bypass h1 h2 h3 hbp hraw
    unfold Lock.check_ts_conflict
    rw [if_neg (by simp [h1, h2, h3]), if_neg (by simp [hbp]), hraw]

/-- Witness for C10: a key whose raw conversion fails is still accepted
under the bypass rule, and the failure is propagated when no rule applies. -/
theorem C10_to_raw_order_witness :
    (Lock.check_ts_conflict ⟨LockType.Put, [], 100, 3, none, 0, 1, 0⟩
        ⟨Except.error ()⟩ 110 (TsSet.new [100]) = Except.ok ()) ∧
    (Lock.check_ts_conflict ⟨LockType.Put, [], 100, 3, none, 0, 1, 0⟩
        ⟨Except.error ()⟩ 110 (TsSet.new []) = Except.error Error.KeyError) :=
  ⟨C10_to_raw_order.1 ⟨LockType.Put, [], 100, 3, none, 0, 1, 0⟩
      ⟨Except.error ()⟩ 110 (TsSet.new [100]) (by decide),
   C10_to_raw_order.2 ⟨LockType.Put, [], 100, 3, none, 0, 1, 0⟩
      ⟨Except.error ()⟩ 110 (TsSet.new []) (by decide) (by decide) (by decide)
      (by decide) rfl⟩

/-- The unrecognized-byte half of the tag mapping, shared by the decoder
claims. -/
theorem from_u8_eq_none (b : Nat)
    (h1 : b ≠ FLAG_PUT) (h2 : b ≠ FLAG_DELETE) (h3 : b ≠ FLAG_LOCK)
    (h4 : b ≠ FLAG_PESSIMISTIC) : LockType.from_u8 b = none := by
  unfold LockType.from_u8
  rw [if_neg h1, if_neg h2, if_neg h3, if_neg h4]

/-- Claim C7: decoding an empty byte sequence fails with `BadFormatLock`,
and so does any sequence whose first byte is not one of the four lock-type
tags. -/
theorem C7_bad_format :
    (Lock.parse [] = PResult.err Error.BadFormatLock) ∧
    (∀ (t : Nat) (rest : List Nat),
      t ≠ FLAG_PUT → t ≠ FLAG_DELETE → t ≠ FLAG_LOCK → t ≠ FLAG_PESSIMISTIC →
      Lock.parse (t :: rest) = PResult.err Error.BadFormatLock) := by
  constructor
  · rfl
  · intro t rest h1 h2 h3 h4
    simp [Lock.parse, from_u8_eq_none t h1 h2 h3 h4]

/-- Witness for C7: tag byte 88 is unrecognized. -/
theorem C7_bad_format_witness :
    Lock.parse [88, 0, 1] = PResult.err Error.BadFormatLock :=
  C7_bad_format.2 88 [0, 1] (by decide) (by decide) (by decide) (by decide)

/-- Claim C8: the tag mapping is a bijection onto the four tag bytes:
`from_u8` inverts `to_u8` on every variant, and returns `none` on every
other byte. -/
theorem C8_tag_bijection :
    (∀ v : LockType, LockType.from_u8 (LockType.to_u8 v) = some v) ∧
    (∀ b : Nat,
      b ≠ FLAG_PUT → b ≠ FLAG_DELETE → b ≠ FLAG_LOCK → b ≠ FLAG_PESSIMISTIC →
      LockType.from_u8 b = none) := by
  constructor
  · exact from_u8_to_u8
  · intro b h1 h2 h3 h4
    exact from_u8_eq_none b h1 h2 h3 h4

/-- Witness for C8: both halves at concrete bytes. -/
theorem C8_tag_bijection_witness :
    LockType.from_u8 (LockType.to_u8 LockType.Pessimistic) = some LockType.Pessimistic ∧
    LockType.from_u8 65 = none :=
  ⟨C8_tag_bijection.1 LockType.Pessimistic,
   C8_tag_bijection.2 65 (by decide) (by decide) (by decide) (by decide)⟩

/-- Claim C2: in the tagged-extension stream, an unknown one-byte tag, or a
short-value extension whose declared length exceeds the remaining buffer,
aborts the process rather than returning an ordinary decode error — for
every buffer reaching that state, and `Lock::parse` propagates the abort. -/
theorem C2_fatal_corruption :
    (∀ (flag : Nat) (rest : List Nat) (sv : Option (List Nat)) (fu tx mc : Nat),
      flag ≠ SHORT_VALUE_TAG → flag ≠ FOR_UPDATE_TS_TAG → flag ≠ TXN_SIZE_TAG →
      flag ≠ MIN_COMMIT_TS_TAG →
      parse_exts (flag :: rest) sv fu tx mc = PResult.fatal) ∧
    (∀ (len : Nat) (rest2 : List Nat) (sv : Option (List Nat)) (fu tx mc : Nat),
      rest2.length < len →
      parse_exts (SHORT_VALUE_TAG :: len :: rest2) sv fu tx mc = PResult.fatal) ∧
    (∀ (lt : LockType) (primary : List Nat) (ts ttl : Nat) (ext : List Nat),
      parse_exts ext none 0 0 0 = PResult.fatal →
      Lock.parse (lt.to_u8 :: (encode_compact_bytes primary ++
        (encode_var_u64 ts ++ (encode_var_u64 ttl ++ ext)))) = PResult.fatal) := by
  refine ⟨?_, ?_, ?_⟩
  · intro flag rest sv fu tx mc h1 h2 h3 h4
    exact parse_exts_unknown flag rest sv fu tx mc h1 h2 h3 h4
  · intro len rest2 sv fu tx mc h
    exact parse_exts_sv_short len rest2 sv fu tx mc h
  · intro lt primary ts ttl ext h
    rw [parse_prefix_exts, h]

/-- Witness for C2: an unknown tag 0, a short value declared longer than
the buffer, and a whole-record parse hitting the unknown tag. -/
theorem C2_fatal_corruption_witness :
    (parse_exts [0] none 0 0 0 = PResult.fatal) ∧
    (parse_exts [SHORT_VALUE_TAG, 5, 1, 2] none 0 0 0 = PResult.fatal) ∧
    (Lock.parse (LockType.Put.to_u8 :: (encode_compact_bytes [1] ++
      (encode_var_u64 5 ++ (encode_var_u64 6 ++ [0])))) = PResult.fatal) :=
  ⟨C2_fatal_corruption.1 0 [] none 0 0 0 (by decide) (by decide) (by decide) (by decide),
   C2_fatal_corruption.2.1 5 [1, 2] none 0 0 0 (by decide),
   C2_fatal_corruption.2.2 LockType.Put [1] 5 6 [0]
     (C2_fatal_corruption.1 0 [] none 0 0 0 (by decide) (by decide) (by decide) (by decide))⟩

/-- Claim C6: a buffer exhausted after the `ts` varint decodes with
`ttl = 0`; a buffer exhausted after the `ttl` varint decodes with all
extension fields at their defaults; and when bytes remain after `ts` a
`ttl` varint is always decoded (its failure fails the parse rather than
defaulting). -/
theorem C6_legacy_defaults :
    (∀ (lt : LockType) (primary : List Nat) (ts : Nat),
      Lock.parse (lt.to_u8 :: (encode_compact_bytes primary ++ encode_var_u64 ts)) =
        PResult.ok (Lock.new lt primary ts 0 none 0 0 0)) ∧
    (∀ (lt : LockType) (primary : List Nat) (ts ttl : Nat),
      Lock.parse (lt.to_u8 :: (encode_compact_bytes primary ++
        (encode_var_u64 ts ++ encode_var_u64 ttl))) =
        PResult.ok (Lock.new lt primary ts ttl none 0 0 0)) ∧
    (∀ (lt : LockType) (primary : List Nat) (ts : Nat) (rest : List Nat),
      rest ≠ [] → decode_var_u64 rest = none →
      Lock.parse (lt.to_u8 :: (encode_compact_bytes primary ++
        (encode_var_u64 ts ++ rest))) = PResult.err Error.Codec) := by
  refine ⟨?_, ?_, ?_⟩
  · intro lt primary ts
    have h2 := decode_var_u64_encode ts []
    rw [List.append_nil] at h2
    simp [Lock.parse, from_u8_to_u8, decode_compact_bytes_encode, h2]
  · intro lt primary ts ttl
    have h0 : (encode_compact_bytes primary ++
          (encode_var_u64 ts ++ encode_var_u64 ttl) : List Nat) =
        encode_compact_bytes primary ++ (encode_var_u64 ts ++ (encode_var_u64 ttl ++ [])) := by
      simp
    rw [h0, parse_prefix_exts, parse_exts_nil]
  · intro lt primary ts rest hne hnone
    simp [Lock.parse, from_u8_to_u8, decode_compact_bytes_encode, decode_var_u64_encode,
      hne, hnone]

/-- Witness for C6: concrete legacy records with and without a ttl, and a
non-empty remainder whose ttl varint is truncated. -/
theorem C6_legacy_defaults_witness :
    (Lock.parse (LockType.Put.to_u8 :: (encode_compact_bytes [1] ++ encode_var_u64 5)) =
      PResult.ok (Lock.new LockType.Put [1] 5 0 none 0 0 0)) ∧
    (Lock.parse (LockType.Put.to_u8 :: (encode_compact_bytes [1] ++
      (encode_var_u64 5 ++ encode_var_u64 7))) =
      PResult.ok (Lock.new LockType.Put [1] 5 7 none 0 0 0)) ∧
    (Lock.parse (LockType.Put.to_u8 :: (encode_compact_bytes [1] ++
      (encode_var_u64 5 ++ [200]))) = PResult.err Error.Codec) :=
  ⟨C6_legacy_defaults.1 LockType.Put [1] 5,
   C6_legacy_defaults.2.1 LockType.Put [1] 5 7,
   C6_legacy_defaults.2.2 LockType.Put [1] 5 [200] (by decide) (by decide)⟩

/-- Claim C9: `Lock::to_bytes` writes the short-value length byte as the
value's length reduced mod 256 (`v.len() as u8`); consequently a lock whose
(byte-valid) short value is longer than 255 bytes never round-trips. -/
theorem C9_short_value_truncation :
    (∀ (l : Lock) (v : List Nat), l.short_value = some v →
      Lock.to_bytes l = l.lock_type.to_u8 :: (encode_compact_bytes l.primary ++
        (encode_var_u64 l.ts ++ (encode_var_u64 l.ttl ++
          (SHORT_VALUE_TAG :: (v.length % 256) :: (v ++
            (u64Part FOR_UPDATE_TS_TAG l.for_update_ts ++ (u64Part TXN_SIZE_TAG l.txn_size ++
              u64Part MIN_COMMIT_TS_TAG l.min_commit_ts)))))))) ∧
    (∀ (l : Lock) (v : List Nat), l.short_value = some v → 255 < v.length →
      (∀ x ∈ v, x < 256) →
      Lock.parse (Lock.to_bytes l) ≠ PResult.ok l) := by
  constructor
  · intro l v hv
    simp [Lock.to_bytes, hv, svPart, List.append_assoc]
  · intro l v hv hlen hbytes h
    have h1 : Lock.to_bytes l = l.lock_type.to_u8 :: (encode_compact_bytes l.primary ++
        (encode_var_u64 l.ts ++ (encode_var_u64 l.ttl ++ (svPart l.short_value ++
          (u64Part FOR_UPDATE_TS_TAG l.for_update_ts ++ (u64Part TXN_SIZE_TAG l.txn_size ++
            u64Part MIN_COMMIT_TS_TAG l.min_commit_ts)))))) := by
      simp [Lock.to_bytes, List.append_assoc]
    rw [h1, parse_prefix_exts] at h
    set ext := svPart l.short_value ++
      (u64Part FOR_UPDATE_TS_TAG l.for_update_ts ++ (u64Part TXN_SIZE_TAG l.txn_size ++
        u64Part MIN_COMMIT_TS_TAG l.min_commit_ts)) with hext
    have hb : ∀ x ∈ ext, x < 256 := by
      intro x hx
      rw [hext] at hx
      rcases List.mem_append.mp hx with hx | hx
      · rw [hv] at hx
        simp only [svPart, List.mem_cons] at hx
        rcases hx with rfl | rfl | hx
        · norm_num [SHORT_VALUE_TAG]
        · exact Nat.mod_lt _ (by norm_num)
        · exact hbytes x hx
      · rcases List.mem_append.mp hx with hx | hx
        · exact u64Part_bytes FOR_UPDATE_TS_TAG l.for_update_ts (by norm_num [FOR_UPDATE_TS_TAG]) x hx
        · rcases List.mem_append.mp hx with hx | hx
          · exact u64Part_bytes TXN_SIZE_TAG l.txn_size (by norm_num [TXN_SIZE_TAG]) x hx
          · exact u64Part_bytes MIN_COMMIT_TS_TAG l.min_commit_ts (by norm_num [MIN_COMMIT_TS_TAG]) x hx
    cases hres : parse_exts ext none 0 0 0 with
    | ok r =>
      obtain ⟨sv, fu, tx, mc⟩ := r
      rw [hres] at h
      simp only [PResult.ok.injEq] at h
      have hsv : sv = l.short_value := congrArg Lock.short_value h
      rcases parse_exts_short_bound ext none 0 0 0 sv fu tx mc hb hres with h0 | ⟨w, hw, hwlen⟩
      · rw [hsv, hv] at h0
        cases h0
      · rw [hsv, hv] at hw
        injection hw with hw'
        rw [← hw'] at hwlen
        omega
    | err e =>
      rw [hres] at h
      cases h
    | fatal =>
      rw [hres] at h
      cases h

/-- Witness for C9: the emitted-shape clause at a concrete lock, and the
failed round-trip for a 256-byte short value. -/
theorem C9_short_value_truncation_witness :
    (Lock.to_bytes ⟨LockType.Put, [1], 5, 6, some [9], 0, 0, 0⟩ =
      LockType.Put.to_u8 :: (encode_compact_bytes [1] ++
        (encode_var_u64 5 ++ (encode_var_u64 6 ++
          (SHORT_VALUE_TAG :: (1 % 256) :: ([9] ++
            (u64Part FOR_UPDATE_TS_TAG 0 ++ (u64Part TXN_SIZE_TAG 0 ++
              u64Part MIN_COMMIT_TS_TAG 0)))))))) ∧
    (Lock.parse (Lock.to_bytes
        ⟨LockType.Put, [1], 5, 6, some (List.replicate 256 7), 0, 0, 0⟩) ≠
      PResult.ok ⟨LockType.Put, [1], 5, 6, some (List.replicate 256 7), 0, 0, 0⟩) :=
  ⟨C9_short_value_truncation.1 ⟨LockType.Put, [1], 5, 6, some [9], 0, 0, 0⟩ [9] rfl,
   C9_short_value_truncation.2 ⟨LockType.Put, [1], 5, 6, some (List.replicate 256 7), 0, 0, 0⟩
     (List.replicate 256 7) rfl
     (by rw [List.length_replicate]; omega)
     (fun x hx => by have := List.eq_of_mem_replicate hx; omega)⟩

end Mvcc
